import Mathlib

/-!
Verification development for the persistent-configuration subsystem
(src/libs/hbb_common/src/config.rs).

Modelling conventions:
* Rust `String` values are modelled as `List Char`.
* File names and raw bytes (the peer-file name encoding) are modelled as
  `List Nat`, each element being one byte.
* Rust `HashMap<String, _>` values are modelled as association lists with
  replace-on-insert semantics (`insertA`); iteration order of a `HashMap`
  is unspecified in Rust, the list order plays that role here.
* The record store (confy), OS paths, timestamps and the MAC address
  source are external collaborators: they enter the models as explicit
  parameters (environment records).
-/

/-- Association-list lookup, modelling `HashMap::get`. -/
def lookupA {β : Type} (k : List Char) : List (List Char × β) → Option β
  | [] => none
  | (k2, v) :: r => if k2 = k then some v else lookupA k r

/-- Removal of a key, modelling `HashMap::remove`. -/
def eraseA {β : Type} (k : List Char) : List (List Char × β) → List (List Char × β)
  | [] => []
  | (k2, v) :: r => if k2 = k then eraseA k r else (k2, v) :: eraseA k r

/-- Replace-or-add insertion, modelling `HashMap::insert`. -/
def insertA {β : Type} (k : List Char) (v : β) (m : List (List Char × β)) :
    List (List Char × β) :=
  (k, v) :: eraseA k m

/-- Conversion helper for concrete string literals. -/
def strM (s : String) : List Char := s.toList

/-- The current secret-format version tag (`PASSWORD_ENC_VERSION = "00"`). -/
def tagV : List Char := ['0', '0']

/-- Modelled from the spec: `password_security::decrypt_str_or_original` is not
under `src/` (only its callers in config.rs are).  Per spec section 4.1, decryption
first checks for the current version tag; on match it runs the underlying cipher
`dec`; on tag mismatch or cipher failure the input is returned unchanged as
plaintext, `was_encrypted = false`, `needs_rewrite = true` iff the input is
non-empty.  The result triple is `(plain, was_encrypted, needs_rewrite)`. -/
def decryptSOr (dec : List Char → Option (List Char)) (s : List Char) :
    List Char × Bool × Bool :=
  if s.take 2 = tagV then
    match dec (s.drop 2) with
    | some p => (p, true, false)
    | none => (s, false, !s.isEmpty)
  else (s, false, !s.isEmpty)

/-- Modelled from the spec: `password_security::encrypt_str_or_original` is not
under `src/`.  Per spec section 4.1, encryption always emits
current-version-tagged ciphertext, the underlying cipher being `enc`. -/
def encryptSOr (enc : List Char → List Char) (s : List Char) : List Char :=
  tagV ++ enc s

/-- A concrete underlying cipher used to instantiate witnesses: it marks the
text with a leading '!' character.  It satisfies the two cipher laws assumed of
the real symmetric cipher: decryption inverts encryption, and decryption
succeeds only on the image of encryption (the authenticated cipher rejects
other inputs). -/
def encC (s : List Char) : List Char := '!' :: s

/-- Decryption side of the concrete witness cipher `encC`. -/
def decC (s : List Char) : Option (List Char) :=
  match s with
  | c :: r => if c = '!' then some r else none
  | [] => none

/-- The primary identity record (struct `Config`, config.rs lines 113-129):
plaintext working id, at-rest encrypted id, permanent password, salt, signing
keypair (secret bytes, public bytes), key-confirmation flag and per-host
key-confirmation map. -/
structure ConfigM where
  id : List Char
  enc_id : List Char
  password : List Char
  salt : List Char
  key_pair : List Nat × List Nat
  key_confirmed : Bool
  keys_confirmed : List (List Char × Bool)
  deriving DecidableEq

/-- The default (serde-default) identity record: all fields empty/false. -/
def ConfigM.defaultM : ConfigM :=
  { id := [], enc_id := [], password := [], salt := [], key_pair := ([], []),
    key_confirmed := false, keys_confirmed := [] }

/-- Environment of `Config::load`: the underlying cipher pair used by the
secret codec, the configuration file's modification time and the executable's
build time (both in whole seconds), and the successive results of the
`Config::get_auto_id` platform id source (`none` models a failed attempt). -/
structure LoadEnv where
  dec : List Char → Option (List Char)
  enc : List Char → List Char
  mtime : Nat
  exe : Nat
  autoIds : List (Option (List Char))

/-- The anti-tamper time check of `Config::load` (config.rs lines 360-364):
`get_modified_time(file).checked_sub(30s).unwrap_or(get_exe_time()) < get_exe_time()`.
`checked_sub` yields `none` when the modification time is within 30 seconds of
the epoch, and the `unwrap_or` fallback then makes the comparison false. -/
def timeCond (mtime exe : Nat) : Bool :=
  decide (30 ≤ mtime) && decide (mtime - 30 < exe)

/-- First successful result of a sequence of attempts (the retry loop body of
config.rs lines 375-383 adopts the first `Some`). -/
def firstSome : List (Option (List Char)) → Option (List Char)
  | [] => none
  | some x :: _ => some x
  | none :: r => firstSome r

/-- The plaintext-id trust condition of `Config::load` (config.rs lines
360-372): the file predates the build (grace window included), the plaintext
id is non-empty, the encrypted id is empty, and the plaintext id does not
itself decrypt as ciphertext. -/
def trustPlainCond (env : LoadEnv) (c : ConfigM) : Bool :=
  timeCond env.mtime env.exe && !c.id.isEmpty && c.enc_id.isEmpty &&
    !(decryptSOr env.dec c.id).2.1

/-- Model of `Config::load` (config.rs lines 347-389).  Returns the in-memory
record together with the flag telling whether `store()` was invoked. -/
def loadModel (env : LoadEnv) (c0 : ConfigM) : ConfigM × Bool :=
  let dp := decryptSOr env.dec c0.password
  let st1 := dp.2.2
  let c1 : ConfigM := { c0 with password := dp.1 }
  let di := decryptSOr env.dec c1.enc_id
  if di.2.1 then
    ({ c1 with id := di.1 }, st1 || di.2.2)
  else if trustPlainCond env c1 then
    (c1, true)
  else
    match firstSome (env.autoIds.take 3) with
    | some nid => ({ c1 with id := nid }, true)
    | none => (c1, st1)

/-- Model of `Config::store` (config.rs lines 391-397): the at-rest record has
the password and the id re-encrypted and the plaintext id field cleared. -/
def storeModel (enc : List Char → List Char) (c : ConfigM) : ConfigM :=
  { c with password := encryptSOr enc c.password,
           enc_id := encryptSOr enc c.id,
           id := [] }

/-- Model of `Config::set_key_confirmed` (config.rs lines 655-665): no-op when
the flag already equals the argument; otherwise set the flag, reset the
per-host map when the new value is `false`, and persist.  The returned flag
tells whether `store()` was invoked. -/
def setKeyConfirmedM (c : ConfigM) (v : Bool) : ConfigM × Bool :=
  if c.key_confirmed = v then (c, false)
  else
    ({ c with key_confirmed := v,
              keys_confirmed := if v then c.keys_confirmed else [] }, true)

/-- Model of `Config::get_host_key_confirmed` (config.rs lines 667-673):
`true` exactly when the map holds `some true` for the host. -/
def getHostKeyConfirmedM (c : ConfigM) (host : List Char) : Bool :=
  match lookupA host c.keys_confirmed with
  | some true => true
  | _ => false

/-- The socks proxy record (struct `Socks5Server`, config.rs lines 131-139). -/
structure Socks5ServerM where
  proxy : List Char
  username : List Char
  password : List Char
  deriving DecidableEq

/-- The network/runtime options record (struct `Config2`, config.rs lines
142-157). -/
structure Config2M where
  rendezvous_server : List Char
  nat_type : Int
  serial : Int
  socks : Option Socks5ServerM
  options : List (List Char × List Char)
  deriving DecidableEq

/-- The default (serde-default) network-options record. -/
def Config2M.defaultM : Config2M :=
  { rendezvous_server := [], nat_type := 0, serial := 0, socks := none,
    options := [] }

/-- Model of `Config::get_option` (config.rs lines 739-745): the stored value,
or the empty string when the key is absent. -/
def getOptionM (m : List (List Char × List Char)) (k : List Char) : List Char :=
  match lookupA k m with
  | some v => v
  | none => []

/-- Model of `Config::set_option` (config.rs lines 747-758): an empty value
stands for absence; when the normalised new value differs from the current one
the key is removed (empty value) or inserted, and the record is persisted.
The returned flag tells whether `store()` was invoked. -/
def setOptionM (m : List (List Char × List Char)) (k v : List Char) :
    List (List Char × List Char) × Bool :=
  let v2 : Option (List Char) := if v.isEmpty then none else some v
  if v2 ≠ lookupA k m then
    (match v2 with
     | none => eraseA k m
     | some _ => insertA k v m, true)
  else (m, false)

/-- The compiled-in `SERIAL` constant (config.rs line 31). -/
def serialConst : Int := 3

/-- The compiled-in default rendezvous server list `RENDEZVOUS_SERVERS`
(config.rs lines 80-82). -/
def rendezvousServersConst : List (List Char) :=
  [strM "remotely.excellentiam.co"]

/-- The default rendezvous port `RENDEZVOUS_PORT = 21116` (config.rs line 84),
as the textual suffix appended by `get_rendezvous_server`. -/
def rendezvousPortSuffix : List Char := strM ":21116"

/-- Splitting at commas, modelling Rust `str::split(",")` (which always yields
one more part than there are separators; splitting the empty string yields one
empty part). -/
def splitComma (s : List Char) : List (List Char) :=
  match s with
  | [] => [[]]
  | c :: r =>
    match splitComma r with
    | [] => [[]]
    | p :: ps => if c = ',' then [] :: p :: ps else (c :: p) :: ps

/-- Model of `Config::get_rendezvous_servers` (config.rs lines 536-557).
`prod` models the `PROD_RENDEZVOUS_SERVER` global. -/
def getRendezvousServersM (prod : List Char) (c2 : Config2M) : List (List Char) :=
  let s := getOptionM c2.options (strM "custom-rendezvous-server")
  if !s.isEmpty then [s]
  else
    if !prod.isEmpty then [prod]
    else
      let serialObsolete := decide (serialConst < c2.serial)
      let ss := (splitComma (getOptionM c2.options (strM "rendezvous-servers"))).filter
        (fun x => '.' ∈ x)
      if serialObsolete && !ss.isEmpty then ss
      else rendezvousServersConst

/-- Model of `Config::get_rendezvous_server` (config.rs lines 516-534). -/
def getRendezvousServerM (prod : List Char) (c2 : Config2M) : List Char :=
  let r0 := getOptionM c2.options (strM "custom-rendezvous-server")
  let r1 := if r0.isEmpty then prod else r0
  let r2 := if r1.isEmpty then c2.rendezvous_server else r1
  let r3 :=
    if r2.isEmpty then
      match getRendezvousServersM prod c2 with
      | [] => []
      | x :: _ => x
    else r2
  if ':' ∈ r3 then r3 else r3 ++ rendezvousPortSuffix

/-- The `i64::MAX` sentinel that initialises the latency scan
(config.rs line 566). -/
def i64Max : Int := 9223372036854775807

/-- The scan of `Config::update_latency` (config.rs lines 565-572): fold over
the latency table keeping the entry with the smallest latency that is strictly
positive and strictly below the current best, starting from host `""` and
delay `i64::MAX`. -/
def scanStep (best p : List Char × Int) : List Char × Int :=
  if 0 < p.2 && p.2 < best.2 then p else best

/-- The complete scan, starting from host `""` and delay `i64::MAX`. -/
def scanBest (t : List (List Char × Int)) : List Char × Int :=
  t.foldl scanStep ([], i64Max)

/-- Model of `Config::update_latency` (config.rs lines 563-582): record the
latency into the transient table, scan for the best host, and when that host
is non-empty and differs from the persisted rendezvous server, update and
persist.  Returns the new table, the new record and whether `store()` ran. -/
def updateLatencyM (online : List (List Char × Int)) (c2 : Config2M)
    (host : List Char) (latency : Int) :
    List (List Char × Int) × Config2M × Bool :=
  let online2 := insertA host latency online
  let best := scanBest online2
  if !best.1.isEmpty then
    if best.1 ≠ c2.rendezvous_server then
      (online2, { c2 with rendezvous_server := best.1 }, true)
    else (online2, c2, false)
  else (online2, c2, false)

/-- The base64 character (as a byte) of a 6-bit group, standard alphabet
(sodiumoxide `base64::Variant::Original`). -/
def b64c (n : Nat) : Nat :=
  if n < 26 then 65 + n
  else if n < 52 then 97 + (n - 26)
  else if n < 62 then 48 + (n - 52)
  else if n = 62 then 43
  else 47

/-- Inverse of `b64c`: the 6-bit value of an alphabet byte, `none` for bytes
outside the alphabet. -/
def b64dc (c : Nat) : Option Nat :=
  if 65 ≤ c ∧ c ≤ 90 then some (c - 65)
  else if 97 ≤ c ∧ c ≤ 122 then some (26 + (c - 97))
  else if 48 ≤ c ∧ c ≤ 57 then some (52 + (c - 48))
  else if c = 43 then some 62
  else if c = 47 then some 63
  else none

/-- Standard padded base64 encoding of a byte sequence (the external
`sodiumoxide::base64::encode` with `Variant::Original`); byte 61 is `'='`. -/
def b64encode : List Nat → List Nat
  | [] => []
  | [a] => [b64c (a / 4), b64c (a % 4 * 16), 61, 61]
  | [a, b] => [b64c (a / 4), b64c (a % 4 * 16 + b / 16), b64c (b % 16 * 4), 61]
  | a :: b :: c :: rest =>
      b64c (a / 4) :: b64c (a % 4 * 16 + b / 16) :: b64c (b % 16 * 4 + c / 64) ::
        b64c (c % 64) :: b64encode rest

/-- Standard padded base64 decoding (the external `sodiumoxide::base64::decode`
with `Variant::Original`): `none` on any malformed input. -/
def b64decode : List Nat → Option (List Nat)
  | [] => some []
  | c1 :: c2 :: c3 :: c4 :: rest =>
    match b64dc c1, b64dc c2 with
    | some n1, some n2 =>
      if c3 = 61 then
        if c4 = 61 ∧ rest = [] ∧ n2 % 16 = 0 then some [n1 * 4 + n2 / 16]
        else none
      else
        match b64dc c3 with
        | some n3 =>
          if c4 = 61 then
            if rest = [] ∧ n3 % 4 = 0 then
              some [n1 * 4 + n2 / 16, n2 % 16 * 16 + n3 / 4]
            else none
          else
            match b64dc c4 with
            | some n4 =>
              (b64decode rest).map
                (fun tl => (n1 * 4 + n2 / 16) :: (n2 % 16 * 16 + n3 / 4) ::
                  (n3 % 4 * 64 + n4) :: tl)
            | none => none
        | none => none
    | _, _ => none
  | _ => none

/-- The filesystem-reserved bytes of the filename check in `PeerConfig::path`
(config.rs line 905, regex character class `<>:/\|?*`). -/
def reservedBytes : List Nat := [60, 62, 58, 47, 92, 124, 63, 42]

/-- The bytes of the literal `"base64_"` filename marker. -/
def b64marker : List Nat := [98, 97, 115, 101, 54, 52, 95]

/-- Model of the filename (stem) encoding of `PeerConfig::path` (config.rs
lines 901-914): an id containing a reserved byte is stored as
`"base64_" ++ base64(id)`, any other id verbatim.  Ids are the UTF-8 bytes of
the peer id; the `.toml` extension that `Config::with_extension` appends and
`file_stem` strips again is left out. -/
def pathStem (id : List Nat) : List Nat :=
  if id.any (fun b => b ∈ reservedBytes) then b64marker ++ b64encode id
  else id

/-- Model of the filename decoding of `PeerConfig::peers` (config.rs lines
936-944): a stem that starts with `"base64_"` and is longer than the marker is
base64-decoded (an undecodable remainder degrades to the empty byte string,
modelling `unwrap_or(Vec::new())`); any other stem is the id itself. -/
def decodeStem (stem : List Nat) : List Nat :=
  if stem.take 7 = b64marker ∧ stem.length ≠ 7 then
    match b64decode (stem.drop 7) with
    | some bs => bs
    | none => []
  else stem

/-- The last-known peer identity (struct `PeerInfoSerde`, config.rs lines
219-227). -/
structure PeerInfoM where
  username : List Char
  hostname : List Char
  platform : List Char
  deriving DecidableEq

/-- The per-peer profile record (struct `PeerConfig`, config.rs lines
159-217), restricted to the fields the listing claims observe: the stored
password, the open options map and the last-known identity. -/
structure PeerConfigM where
  password : List Nat
  options : List (List Char × List Char)
  info : PeerInfoM
  deriving DecidableEq

/-- The default (serde-default) peer profile: every field empty.  This is also
what `PeerConfig::load` returns on a read or parse failure. -/
def PeerConfigM.defaultM : PeerConfigM :=
  { password := [], options := [], info := { username := [], hostname := [], platform := [] } }

/-- One directory entry of the `peers` subdirectory, as `PeerConfig::peers`
observes it: the file stem (bytes), whether it is a regular file with the
`toml` extension, its modification time, and the profile that
`PeerConfig::load` produces for it (`none` models a per-file read or parse
failure, which the loader turns into the default profile). -/
structure DirEntryM where
  stem : List Nat
  isFile : Bool
  extToml : Bool
  mtime : Nat
  load : Option PeerConfigM
  deriving DecidableEq

/-- The `collect::<Result<Vec<_>, _>>()` step of `PeerConfig::peers` (config.rs
lines 918-921): the whole enumeration fails as soon as one directory entry is
an error. -/
def collectOk : List (Except Unit DirEntryM) → Option (List DirEntryM)
  | [] => some []
  | .ok e :: r => (collectOk r).map (fun es => e :: es)
  | .error _ :: _ => none

/-- One element of the listing result: decoded id, modification time,
loaded profile. -/
def PeerTuple : Type := List Nat × Nat × PeerConfigM

instance : DecidableEq PeerTuple := by
  unfold PeerTuple
  infer_instance

/-- Insertion into a list sorted by strictly later modification time first
(the effect of `sort_unstable_by(|a, b| b.1.cmp(&a.1))`). -/
def insertDesc (x : PeerTuple) : List PeerTuple → List PeerTuple
  | [] => [x]
  | y :: r => if y.2.1 ≤ x.2.1 then x :: y :: r else y :: insertDesc x r

/-- Sorting by modification time, most recent first. -/
def sortDesc : List PeerTuple → List PeerTuple
  | [] => []
  | x :: r => insertDesc x (sortDesc r)

/-- Ordering of listing entries: the left entry's modification time is at
least the right one's (most recent first). -/
def tupleGe (a b : PeerTuple) : Prop := b.2.1 ≤ a.2.1

/-- Model of `PeerConfig::peers` (config.rs lines 916-959).  Returns the
listing together with the entries whose backing files were deleted. -/
def peersModel (ents : List (Except Unit DirEntryM)) :
    List PeerTuple × List DirEntryM :=
  match collectOk ents with
  | none => ([], [])
  | some es =>
    let files := es.filter (fun e => e.isFile && e.extToml)
    let mapped := files.map
      (fun e => (e, ((decodeStem e.stem, e.mtime, e.load.getD PeerConfigM.defaultM) : PeerTuple)))
    let deleted := (mapped.filter (fun x => x.2.2.2.info.platform.isEmpty)).map (fun x => x.1)
    let kept := (mapped.filter (fun x => !x.2.2.2.info.platform.isEmpty)).map (fun x => x.2)
    (sortDesc kept, deleted)

/-! Helper lemmas about the data-model operations. -/

theorem lookupA_insertA_self {β : Type} (k : List Char) (v : β) (m) :
    lookupA k (insertA k v m) = some v := by
  simp [insertA, lookupA]

theorem lookupA_eraseA_self {β : Type} (k : List Char) (m : List (List Char × β)) :
    lookupA k (eraseA k m) = none := by
  induction m with
  | nil => simp [eraseA, lookupA]
  | cons p r ih =>
    obtain ⟨k2, v⟩ := p
    by_cases h : k2 = k
    · simp [eraseA, h, ih]
    · simp [eraseA, lookupA, h, ih]

theorem decC_encC (s : List Char) : decC (encC s) = some s := by
  simp [decC, encC]

theorem decC_image (t p : List Char) (h : decC t = some p) : t = encC p := by
  match t with
  | [] => simp [decC] at h
  | c :: r =>
    simp only [decC] at h
    by_cases hc : c = '!'
    · simp [hc] at h
      simp [encC, hc, h]
    · simp [hc] at h

theorem b64dc_b64c : ∀ n < 64, b64dc (b64c n) = some n := by decide

theorem b64c_ne_61 : ∀ n < 64, b64c n ≠ 61 := by decide

/-- Base64 decoding inverts base64 encoding on byte sequences. -/
theorem b64decode_b64encode (l : List Nat) (h : ∀ x ∈ l, x < 256) :
    b64decode (b64encode l) = some l := by
  induction l using b64encode.induct with
  | case1 => rfl
  | case2 a =>
    have ha : a < 256 := h a (by simp)
    have h1 : a / 4 < 64 := by omega
    have h2 : a % 4 * 16 < 64 := by omega
    simp only [b64encode, b64decode, b64dc_b64c _ h1, b64dc_b64c _ h2]
    have : a % 4 * 16 % 16 = 0 := by omega
    simp [this]
    omega
  | case3 a b =>
    have ha : a < 256 := h a (by simp)
    have hb : b < 256 := h b (by simp)
    have h1 : a / 4 < 64 := by omega
    have h2 : a % 4 * 16 + b / 16 < 64 := by omega
    have h3 : b % 16 * 4 < 64 := by omega
    simp only [b64encode, b64decode, b64dc_b64c _ h1, b64dc_b64c _ h2,
      b64dc_b64c _ h3, b64c_ne_61 _ h3]
    have : b % 16 * 4 % 4 = 0 := by omega
    simp [b64c_ne_61 _ h3, this]
    constructor
    · omega
    · omega
  | case4 a b c rest ih =>
    have ha : a < 256 := h a (by simp)
    have hb : b < 256 := h b (by simp)
    have hc : c < 256 := h c (by simp)
    have h1 : a / 4 < 64 := by omega
    have h2 : a % 4 * 16 + b / 16 < 64 := by omega
    have h3 : b % 16 * 4 + c / 64 < 64 := by omega
    have h4 : c % 64 < 64 := by omega
    have hrest : ∀ x ∈ rest, x < 256 := by
      intro x hx
      exact h x (by simp [hx])
    simp only [b64encode, b64decode, b64dc_b64c _ h1, b64dc_b64c _ h2,
      b64dc_b64c _ h3, b64dc_b64c _ h4, b64c_ne_61 _ h3, b64c_ne_61 _ h4]
    simp [b64c_ne_61 _ h3, b64c_ne_61 _ h4, ih hrest]
    refine ⟨by omega, by omega, by omega⟩

/-! Further helper lemmas: the latency scan and the listing sort. -/

theorem scanFold_snd_le (t : List (List Char × Int)) (acc : List Char × Int) :
    (t.foldl scanStep acc).2 ≤ acc.2 := by
  induction t generalizing acc with
  | nil => simp
  | cons q r ih =>
    simp only [List.foldl_cons]
    refine le_trans (ih (scanStep acc q)) ?_
    unfold scanStep
    split
    · next h =>
      simp only [Bool.and_eq_true, decide_eq_true_eq] at h
      exact le_of_lt h.2
    · exact le_refl _

theorem scanFold_min (t : List (List Char × Int)) (acc : List Char × Int)
    (p : List Char × Int) (hp : p ∈ t) (hpos : 0 < p.2) :
    (t.foldl scanStep acc).2 ≤ p.2 ∨ acc.2 ≤ p.2 := by
  induction t generalizing acc with
  | nil => simp at hp
  | cons q r ih =>
    simp only [List.foldl_cons]
    rcases List.mem_cons.mp hp with hq | hr
    · subst hq
      by_cases h : p.2 < acc.2
      · left
        refine le_trans (scanFold_snd_le r (scanStep acc p)) ?_
        unfold scanStep
        rw [if_pos (by simp [hpos, h])]
      · right
        omega
    · rcases ih (scanStep acc q) hr with h | h
      · exact Or.inl h
      · left
        refine le_trans (scanFold_snd_le r (scanStep acc q)) h

theorem scanFold_mem (t : List (List Char × Int)) (acc : List Char × Int) :
    t.foldl scanStep acc = acc ∨
      (t.foldl scanStep acc ∈ t ∧ 0 < (t.foldl scanStep acc).2) := by
  induction t generalizing acc with
  | nil => simp
  | cons q r ih =>
    simp only [List.foldl_cons]
    rcases ih (scanStep acc q) with h | h
    · rw [h]
      unfold scanStep
      split
      · next hcond =>
        simp only [Bool.and_eq_true, decide_eq_true_eq] at hcond
        right
        exact ⟨List.mem_cons_self _ _, hcond.1⟩
      · left; rfl
    · right
      exact ⟨List.mem_cons_of_mem _ h.1, h.2⟩

theorem scanFold_nochange (t : List (List Char × Int)) (acc : List Char × Int)
    (h : ∀ p ∈ t, ¬(0 < p.2 ∧ p.2 < acc.2)) :
    t.foldl scanStep acc = acc := by
  induction t with
  | nil => rfl
  | cons q r ih =>
    simp only [List.foldl_cons]
    have hq := h q (List.mem_cons_self _ _)
    have hstep : scanStep acc q = acc := by
      unfold scanStep
      rw [if_neg]
      simp only [Bool.and_eq_true, decide_eq_true_eq]
      tauto
    rw [hstep]
    exact ih (fun p hp => h p (List.mem_cons_of_mem _ hp))

theorem mem_insertDesc (x y : PeerTuple) (l : List PeerTuple) :
    y ∈ insertDesc x l ↔ y = x ∨ y ∈ l := by
  induction l with
  | nil => simp [insertDesc]
  | cons z r ih =>
    simp only [insertDesc]
    split
    · simp [List.mem_cons]
    · simp only [List.mem_cons, ih]
      tauto

theorem mem_sortDesc (y : PeerTuple) (l : List PeerTuple) :
    y ∈ sortDesc l ↔ y ∈ l := by
  induction l with
  | nil => simp [sortDesc]
  | cons x r ih =>
    simp only [sortDesc, mem_insertDesc, List.mem_cons, ih]

theorem pairwise_insertDesc (x : PeerTuple) (l : List PeerTuple)
    (h : l.Pairwise tupleGe) : (insertDesc x l).Pairwise tupleGe := by
  induction l with
  | nil => simp [insertDesc]
  | cons z r ih =>
    rw [List.pairwise_cons] at h
    simp only [insertDesc]
    split
    · next hle =>
      rw [List.pairwise_cons]
      constructor
      · intro w hw
        rcases List.mem_cons.mp hw with hwz | hwr
        · subst hwz; exact hle
        · exact le_trans (h.1 w hwr) hle
      · rw [List.pairwise_cons]
        exact h
    · next hgt =>
      rw [List.pairwise_cons]
      constructor
      · intro w hw
        rcases (mem_insertDesc x w r).mp hw with hwx | hwr
        · subst hwx
          unfold tupleGe
          omega
        · exact h.1 w hwr
      · exact ih h.2

theorem pairwise_sortDesc (l : List PeerTuple) : (sortDesc l).Pairwise tupleGe := by
  induction l with
  | nil => simp [sortDesc]
  | cons x r ih => exact pairwise_insertDesc x (sortDesc r) ih

/-! The claims. -/

/-- C3: for every string s, decrypting the result of encrypting s returns the
triple (s, was_encrypted = true, needs_rewrite = false); and for every string
s not produced by encrypt, decrypt returns s unchanged with
was_encrypted = false and needs_rewrite true exactly when s is non-empty.
Stated for any underlying cipher pair satisfying the two cipher laws
(decryption inverts encryption; decryption succeeds only on encryption's
image). -/
theorem claim_c3_codec_roundtrip (enc : List Char → List Char)
    (dec : List Char → Option (List Char))
    (hrt : ∀ s, dec (enc s) = some s)
    (him : ∀ t p, dec t = some p → t = enc p) :
    (∀ s, decryptSOr dec (encryptSOr enc s) = (s, true, false)) ∧
    (∀ s, (∀ p, s ≠ encryptSOr enc p) →
      decryptSOr dec s = (s, false, !s.isEmpty)) := by
  constructor
  · intro s
    have htake : (encryptSOr enc s).take 2 = tagV := rfl
    have hdrop : (encryptSOr enc s).drop 2 = enc s := rfl
    unfold decryptSOr
    rw [htake, hdrop, if_pos rfl, hrt]
  · intro s hs
    unfold decryptSOr
    split
    · next htag =>
      cases hd : dec (s.drop 2) with
      | none => simp
      | some p =>
        exfalso
        apply hs p
        have himg := him _ _ hd
        have h2 : s.take 2 ++ s.drop 2 = s := List.take_append_drop 2 s
        rw [← h2, htag, himg]
        rfl
    · rfl

/-- Witness for C3: the concrete cipher pair `encC`/`decC` satisfies the two
cipher laws, and the claim evaluated at concrete strings. -/
theorem claim_c3_codec_roundtrip_witness :
    decryptSOr decC (encryptSOr encC ['p', 'w']) = (['p', 'w'], true, false) ∧
    decryptSOr decC ['l', 'e', 'g'] = (['l', 'e', 'g'], false, true) ∧
    decryptSOr decC [] = ([], false, false) := by
  have h := claim_c3_codec_roundtrip encC decC decC_encC decC_image
  refine ⟨h.1 ['p', 'w'], ?_, ?_⟩
  · have h2 := h.2 ['l', 'e', 'g'] ?hne
    · rw [h2]; rfl
    case hne =>
      intro p hc
      simp [encryptSOr, tagV, encC] at hc
  · have h3 := h.2 [] ?hne2
    · rw [h3]; rfl
    case hne2 =>
      intro p hc
      simp [encryptSOr, tagV, encC] at hc

/-- C8: on the network-options map, setting a key to the empty string removes
it so a subsequent get returns the empty string; setting a non-empty value
different from the current one updates the map and persists; setting a value
equal to the current one (or the empty string for an absent key) changes
nothing and performs no persist; and get returns the empty string whenever the
key is absent. -/
theorem claim_c8_option_semantics (m : List (List Char × List Char))
    (k v : List Char) :
    (lookupA k (setOptionM m k []).1 = none ∧
      getOptionM (setOptionM m k []).1 k = []) ∧
    (v ≠ [] → lookupA k m ≠ some v →
      (setOptionM m k v).1 = insertA k v m ∧ (setOptionM m k v).2 = true ∧
        getOptionM (setOptionM m k v).1 k = v) ∧
    ((if v.isEmpty then none else some v) = lookupA k m →
      setOptionM m k v = (m, false)) ∧
    (lookupA k m = none → getOptionM m k = []) := by
  refine ⟨?_, ?_, ?_, ?_⟩
  · simp only [setOptionM, List.isEmpty_nil, if_true]
    by_cases hl : lookupA k m = none
    · rw [if_neg (fun hcon => hcon hl.symm)]
      simp [hl, getOptionM]
    · rw [if_pos (fun h => hl h.symm)]
      simp [lookupA_eraseA_self, getOptionM]
  · intro hv hne
    have hve : v.isEmpty = false := by
      cases v with
      | nil => exact absurd rfl hv
      | cons a r => rfl
    simp only [setOptionM, hve, Bool.false_eq_true, if_false]
    rw [if_pos (fun h => hne h.symm)]
    refine ⟨rfl, rfl, ?_⟩
    simp [getOptionM, lookupA_insertA_self]
  · intro heq
    simp only [setOptionM]
    rw [if_neg (fun hcon => hcon heq)]
  · intro hl
    simp [getOptionM, hl]

/-- Witness for C8 at a concrete two-entry map. -/
theorem claim_c8_option_semantics_witness :
    (lookupA ['a'] (setOptionM [(['a'], ['1']), (['b'], ['2'])] ['a'] []).1 = none ∧
      getOptionM (setOptionM [(['a'], ['1']), (['b'], ['2'])] ['a'] []).1 ['a'] = []) ∧
    (setOptionM [(['a'], ['1'])] ['a'] ['9']).1 = insertA ['a'] ['9'] [(['a'], ['1'])] ∧
    (setOptionM [(['a'], ['1'])] ['a'] ['9']).2 = true ∧
    setOptionM [(['a'], ['1'])] ['a'] ['1'] = ([(['a'], ['1'])], false) ∧
    getOptionM [(['a'], ['1'])] ['z'] = [] := by
  refine ⟨(claim_c8_option_semantics [(['a'], ['1']), (['b'], ['2'])] ['a'] []).1,
    ?_, ?_, ?_, ?_⟩
  · exact ((claim_c8_option_semantics [(['a'], ['1'])] ['a'] ['9']).2.1
      (by decide) (by decide)).1
  · exact ((claim_c8_option_semantics [(['a'], ['1'])] ['a'] ['9']).2.1
      (by decide) (by decide)).2.1
  · exact (claim_c8_option_semantics [(['a'], ['1'])] ['a'] ['1']).2.2.1 (by decide)
  · exact (claim_c8_option_semantics [(['a'], ['1'])] ['z'] []).2.2.2 (by decide)

/-- C10 counterexample: with the flag already false and a confirmed host in
the map, `set_key_confirmed(false)` is a complete no-op — the per-host map is
NOT reset, and `get_host_key_confirmed` still returns true afterwards,
contradicting the claim that set_key_confirmed(false) resets the entire map. -/
theorem claim_c10_counterexample :
    setKeyConfirmedM
        { ConfigM.defaultM with keys_confirmed := [(['h'], true)] } false =
      ({ ConfigM.defaultM with keys_confirmed := [(['h'], true)] }, false) ∧
    getHostKeyConfirmedM
        (setKeyConfirmedM
          { ConfigM.defaultM with keys_confirmed := [(['h'], true)] } false).1
        ['h'] = true := by
  exact ⟨rfl, rfl⟩

/-- C10 amended: when the call actually changes the flag from true to false,
`set_key_confirmed(false)` also resets the entire per-host keys_confirmed map
to empty (so every get_host_key_confirmed(h) afterwards returns false);
changing the flag from false to true leaves the keys_confirmed map unchanged;
when the flag already equals the argument the call is a complete no-op (the
map is untouched); and the record is persisted exactly when the flag actually
changed. -/
theorem claim_c10_amended (c : ConfigM) (v : Bool) :
    ((setKeyConfirmedM c v).2 = true ↔ c.key_confirmed ≠ v) ∧
    (c.key_confirmed = v → setKeyConfirmedM c v = (c, false)) ∧
    (c.key_confirmed = true → v = false →
      (setKeyConfirmedM c v).1.keys_confirmed = [] ∧
      (setKeyConfirmedM c v).1.key_confirmed = false ∧
      ∀ h, getHostKeyConfirmedM (setKeyConfirmedM c v).1 h = false) ∧
    (c.key_confirmed = false → v = true →
      (setKeyConfirmedM c v).1.keys_confirmed = c.keys_confirmed ∧
      (setKeyConfirmedM c v).1.key_confirmed = true) := by
  refine ⟨?_, ?_, ?_, ?_⟩
  · unfold setKeyConfirmedM
    by_cases h : c.key_confirmed = v
    · simp [h]
    · simp [h]
  · intro h
    unfold setKeyConfirmedM
    rw [if_pos h]
  · intro hc hv
    subst hv
    unfold setKeyConfirmedM
    rw [if_neg (by simp [hc])]
    refine ⟨rfl, rfl, ?_⟩
    intro h
    simp [getHostKeyConfirmedM, lookupA]
  · intro hc hv
    subst hv
    unfold setKeyConfirmedM
    rw [if_neg (by simp [hc])]
    exact ⟨rfl, rfl⟩

/-- Witness for C10 amended at a concrete record with a confirmed host and the
flag set. -/
theorem claim_c10_amended_witness :
    (setKeyConfirmedM
        { ConfigM.defaultM with key_confirmed := true,
                                keys_confirmed := [(['h'], true)] }
        false).1.keys_confirmed = [] ∧
    getHostKeyConfirmedM
        (setKeyConfirmedM
          { ConfigM.defaultM with key_confirmed := true,
                                  keys_confirmed := [(['h'], true)] }
          false).1 ['h'] = false := by
  have h := (claim_c10_amended
    { ConfigM.defaultM with key_confirmed := true,
                            keys_confirmed := [(['h'], true)] } false).2.2.1
    rfl rfl
  exact ⟨h.1, h.2.2 ['h']⟩

/-- Shared helper: with no user override and no production override, and the
custom-list path not taken, get_rendezvous_servers yields the compiled-in
default list. -/
theorem serversDefaultOfNoCustom (prod : List Char) (c2 : Config2M)
    (hc : getOptionM c2.options (strM "custom-rendezvous-server") = [])
    (hp : prod = [])
    (hno : ¬(serialConst < c2.serial ∧
      (splitComma (getOptionM c2.options (strM "rendezvous-servers"))).filter
        (fun x => decide ('.' ∈ x)) ≠ [])) :
    getRendezvousServersM prod c2 = rendezvousServersConst := by
  simp only [getRendezvousServersM]
  rw [if_neg (by simp [hc]), if_neg (by simp [hp]), if_neg ?hcond]
  case hcond =>
    intro h
    apply hno
    simp only [Bool.and_eq_true, decide_eq_true_eq] at h
    refine ⟨h.1, ?_⟩
    intro hfil
    rw [hfil] at h
    simp at h

/-- C7: get_rendezvous_servers returns, in order of precedence: a one-element
list holding the non-empty user override option, else a one-element list
holding the non-empty production override, else — only when the persisted
serial strictly exceeds the compiled SERIAL constant — the non-empty
comma-separated "rendezvous-servers" option filtered to well-formed host
entries (entries containing a dot), else the compiled-in default server
list. -/
theorem claim_c7_server_list (prod : List Char) (c2 : Config2M) :
    (getOptionM c2.options (strM "custom-rendezvous-server") ≠ [] →
      getRendezvousServersM prod c2 =
        [getOptionM c2.options (strM "custom-rendezvous-server")]) ∧
    (getOptionM c2.options (strM "custom-rendezvous-server") = [] → prod ≠ [] →
      getRendezvousServersM prod c2 = [prod]) ∧
    (getOptionM c2.options (strM "custom-rendezvous-server") = [] → prod = [] →
      serialConst < c2.serial →
      (splitComma (getOptionM c2.options (strM "rendezvous-servers"))).filter
          (fun x => decide ('.' ∈ x)) ≠ [] →
      getRendezvousServersM prod c2 =
        (splitComma (getOptionM c2.options (strM "rendezvous-servers"))).filter
          (fun x => decide ('.' ∈ x))) ∧
    (getOptionM c2.options (strM "custom-rendezvous-server") = [] → prod = [] →
      ¬(serialConst < c2.serial ∧
        (splitComma (getOptionM c2.options (strM "rendezvous-servers"))).filter
          (fun x => decide ('.' ∈ x)) ≠ []) →
      getRendezvousServersM prod c2 = rendezvousServersConst) := by
  refine ⟨?_, ?_, ?_, ?_⟩
  · intro hc
    simp only [getRendezvousServersM]
    rw [if_pos (by simp [hc])]
  · intro hc hp
    simp only [getRendezvousServersM]
    rw [if_neg (by simp [hc]), if_pos (by simp [hp])]
  · intro hc hp hserial hfil
    simp only [getRendezvousServersM]
    rw [if_neg (by simp [hc]), if_neg (by simp [hp]),
      if_pos (by simp [hserial, hfil])]
  · intro hc hp hno
    exact serversDefaultOfNoCustom prod c2 hc hp hno

/-- Witness for C7: a record whose persisted serial exceeds the compiled
SERIAL and whose "rendezvous-servers" option holds two well-formed entries and
one malformed entry selects exactly the two well-formed entries. -/
theorem claim_c7_server_list_witness :
    getRendezvousServersM []
        { rendezvous_server := [], nat_type := 0, serial := 5, socks := none,
          options := [(strM "rendezvous-servers", strM "a.com,b.com,nodot")] } =
      [strM "a.com", strM "b.com"] := by
  have h := (claim_c7_server_list []
    { rendezvous_server := [], nat_type := 0, serial := 5, socks := none,
      options := [(strM "rendezvous-servers", strM "a.com,b.com,nodot")] }).2.2.1
    (by decide) rfl (by decide) (by decide)
  rw [h]
  decide

/-- List helper: a non-empty list has isEmpty false. -/
theorem isEmptyFalseOfNe {l : List Char} (h : l ≠ []) : l.isEmpty = false := by
  cases l with
  | nil => exact absurd rfl h
  | cons a r => rfl

/-- C5 counterexample: with no user override, no production override and an
empty persisted server, but a persisted serial (4) exceeding the compiled
SERIAL (3) and a well-formed "rendezvous-servers" option, the resolved server
is the first custom entry "a.com:21116" and NOT the first compiled-in default
"remotely.excellentiam.co:21116" that the claim promises for the final
fallback. -/
theorem claim_c5_counterexample :
    getRendezvousServerM []
        { rendezvous_server := [], nat_type := 0, serial := 4, socks := none,
          options := [(strM "rendezvous-servers", strM "a.com,b.com")] } =
      strM "a.com:21116" ∧
    getRendezvousServerM []
        { rendezvous_server := [], nat_type := 0, serial := 4, socks := none,
          options := [(strM "rendezvous-servers", strM "a.com,b.com")] } ≠
      strM "remotely.excellentiam.co:21116" ∧
    getOptionM
        [(strM "rendezvous-servers", strM "a.com,b.com")]
        (strM "custom-rendezvous-server") = [] := by
  refine ⟨by decide, by decide, by decide⟩

/-- C5 amended: get_rendezvous_server returns the first non-empty value in the
order: the user-set "custom-rendezvous-server" option, the build-injected
production override, the persisted rendezvous_server field, then the FIRST
ENTRY OF THE SERVER-LIST RESOLUTION of get_rendezvous_servers (which is the
compiled-in default list unless the persisted serial strictly exceeds the
compiled SERIAL and the "rendezvous-servers" option filters to a non-empty
well-formed list); if the chosen value contains no ":" the default rendezvous
port 21116 is appended; with no overrides, an empty persisted value, and the
custom-list path not taken, it returns "remotely.excellentiam.co:21116". -/
theorem claim_c5_server_resolution (prod : List Char) (c2 : Config2M) :
    (getOptionM c2.options (strM "custom-rendezvous-server") ≠ [] →
      getRendezvousServerM prod c2 =
        (if ':' ∈ getOptionM c2.options (strM "custom-rendezvous-server") then
          getOptionM c2.options (strM "custom-rendezvous-server")
        else
          getOptionM c2.options (strM "custom-rendezvous-server") ++
            rendezvousPortSuffix)) ∧
    (getOptionM c2.options (strM "custom-rendezvous-server") = [] → prod ≠ [] →
      getRendezvousServerM prod c2 =
        (if ':' ∈ prod then prod else prod ++ rendezvousPortSuffix)) ∧
    (getOptionM c2.options (strM "custom-rendezvous-server") = [] → prod = [] →
      c2.rendezvous_server ≠ [] →
      getRendezvousServerM prod c2 =
        (if ':' ∈ c2.rendezvous_server then c2.rendezvous_server
        else c2.rendezvous_server ++ rendezvousPortSuffix)) ∧
    (getOptionM c2.options (strM "custom-rendezvous-server") = [] → prod = [] →
      c2.rendezvous_server = [] →
      getRendezvousServerM prod c2 =
        ((getRendezvousServersM prod c2).headD []) ++ rendezvousPortSuffix ∨
      getRendezvousServerM prod c2 = (getRendezvousServersM prod c2).headD []) ∧
    (getOptionM c2.options (strM "custom-rendezvous-server") = [] → prod = [] →
      c2.rendezvous_server = [] →
      ¬(serialConst < c2.serial ∧
        (splitComma (getOptionM c2.options (strM "rendezvous-servers"))).filter
          (fun x => decide ('.' ∈ x)) ≠ []) →
      getRendezvousServerM prod c2 = strM "remotely.excellentiam.co:21116") := by
  refine ⟨?_, ?_, ?_, ?_, ?_⟩
  · intro hc
    have h0 := isEmptyFalseOfNe hc
    simp [getRendezvousServerM, h0]
  · intro hc hp
    have hp0 := isEmptyFalseOfNe hp
    simp [getRendezvousServerM, hc, hp0]
  · intro hc hp hr
    subst hp
    have hr0 := isEmptyFalseOfNe hr
    simp [getRendezvousServerM, hc, hr0]
  · intro hc hp hr
    subst hp
    simp only [getRendezvousServerM, hc, hr]
    cases hs : getRendezvousServersM [] c2 with
    | nil => simp [hs]
    | cons x rest =>
      by_cases hcolon : ':' ∈ x
      · right
        simp [hs, hcolon]
      · left
        simp [hs, hcolon]
  · intro hc hp hr hno
    subst hp
    have hserv : getRendezvousServersM [] c2 = rendezvousServersConst :=
      serversDefaultOfNoCustom [] c2 hc rfl hno
    simp only [getRendezvousServerM, hc, hr, hserv, rendezvousServersConst]
    decide

/-- Witness for C5 amended: with no overrides and a default record the
resolution yields the compiled-in default host with the default port
appended. -/
theorem claim_c5_server_resolution_witness :
    getRendezvousServerM [] Config2M.defaultM =
      strM "remotely.excellentiam.co:21116" :=
  (claim_c5_server_resolution [] Config2M.defaultM).2.2.2.2 rfl rfl rfl
    (by decide)

/-- Helper: the base64 encoding of a non-empty byte sequence is non-empty. -/
theorem b64encode_ne_nil (l : List Nat) (h : l ≠ []) : b64encode l ≠ [] := by
  match l with
  | [] => exact absurd rfl h
  | [a] => simp [b64encode]
  | [a, b] => simp [b64encode]
  | a :: b :: c :: rest => simp [b64encode]

/-- C2 counterexample: the id "base64_abcd" (bytes below) contains no
filesystem-reserved character, so its filename is the id verbatim; but the
listing decode sees the "base64_" marker, base64-decodes the remainder "abcd"
and recovers a different id — the round-trip decode(path_for(id)) == id fails,
refuting the universally quantified claim. -/
theorem claim_c2_counterexample :
    pathStem [98, 97, 115, 101, 54, 52, 95, 97, 98, 99, 100] =
      [98, 97, 115, 101, 54, 52, 95, 97, 98, 99, 100] ∧
    decodeStem (pathStem [98, 97, 115, 101, 54, 52, 95, 97, 98, 99, 100]) =
      [105, 183, 29] ∧
    decodeStem (pathStem [98, 97, 115, 101, 54, 52, 95, 97, 98, 99, 100]) ≠
      [98, 97, 115, 101, 54, 52, 95, 97, 98, 99, 100] := by
  refine ⟨by decide, by decide, by decide⟩

/-- C2 amended: for every peer id (as a byte sequence) containing a
filesystem-reserved character, the stored filename is "base64_" followed by
the base64 encoding of the id, and the listing decode recovers exactly the
original id; for every id without such characters the filename is the id
verbatim; and decode(path_for(id)) == id holds for every id EXCEPT those
reserved-character-free ids that themselves start with the "base64_" marker
and are longer than it. -/
theorem claim_c2_roundtrip (id : List Nat) (hb : ∀ b ∈ id, b < 256)
    (hx : id.any (fun b => decide (b ∈ reservedBytes)) = true ∨
      ¬(id.take 7 = b64marker ∧ id.length ≠ 7)) :
    decodeStem (pathStem id) = id ∧
    (id.any (fun b => decide (b ∈ reservedBytes)) = true →
      pathStem id = b64marker ++ b64encode id) ∧
    (id.any (fun b => decide (b ∈ reservedBytes)) = false →
      pathStem id = id) := by
  by_cases hres : id.any (fun b => decide (b ∈ reservedBytes)) = true
  · have hne : id ≠ [] := by
      intro he
      subst he
      simp [List.any] at hres
    have hpath : pathStem id = b64marker ++ b64encode id := by
      simp only [pathStem]
      rw [if_pos hres]
    refine ⟨?_, fun _ => hpath, fun hcon => absurd hres (by simp [hcon])⟩
    rw [hpath]
    simp only [decodeStem]
    have hlen7 : b64marker.length = 7 := rfl
    have htake : (b64marker ++ b64encode id).take 7 = b64marker := by
      rw [← hlen7, List.take_left]
    have hdrop : (b64marker ++ b64encode id).drop 7 = b64encode id := by
      rw [← hlen7, List.drop_left]
    have hlen : (b64marker ++ b64encode id).length ≠ 7 := by
      rw [List.length_append, hlen7]
      have := b64encode_ne_nil id hne
      have hpos : 0 < (b64encode id).length := List.length_pos.mpr this
      omega
    rw [if_pos ⟨htake, hlen⟩, hdrop, b64decode_b64encode id hb]
  · have hres2 : id.any (fun b => decide (b ∈ reservedBytes)) = false := by
      cases h : id.any (fun b => decide (b ∈ reservedBytes)) with
      | false => rfl
      | true => exact absurd h hres
    have hpath : pathStem id = id := by
      simp only [pathStem]
      rw [if_neg hres]
    refine ⟨?_, fun hcon => absurd hcon hres, fun _ => hpath⟩
    rw [hpath]
    simp only [decodeStem]
    rcases hx with hx | hx
    · exact absurd hx hres
    · rw [if_neg hx]

/-- Witness for C2: the id "a/b" (a reserved character) round-trips through
encode/decode, and the id "simple" (no reserved character) is stored
verbatim. -/
theorem claim_c2_roundtrip_witness :
    decodeStem (pathStem [97, 47, 98]) = [97, 47, 98] ∧
    pathStem [115, 105, 109, 112, 108, 101] =
      [115, 105, 109, 112, 108, 101] := by
  refine ⟨(claim_c2_roundtrip [97, 47, 98] (by decide) (by decide)).1, ?_⟩
  exact (claim_c2_roundtrip [115, 105, 109, 112, 108, 101] (by decide)
    (by decide)).2.2 (by decide)

/-- C1 counterexample, refuting two conjuncts of the claim at two concrete
loaded records (cipher `encC`/`decC`, file older than the build, all three id
generation attempts failing).  First record: plaintext id "x" with an
undecryptable non-empty encrypted id — after all generation attempts fail the
id is left as the loaded "x", NOT empty as the claim states.  Second record:
plaintext id "w" together with a validly encrypted id "v" — step 1 changes the
in-memory record (id becomes "v", and the loaded plaintext "w" is dropped),
yet no re-persist happens (the store flag is false), contradicting the
"whenever any of these steps changed the record, it is immediately
re-persisted" conjunct. -/
theorem claim_c1_counterexample :
    ((loadModel
        { dec := decC, enc := encC, mtime := 100, exe := 200,
          autoIds := [none, none, none] }
        { ConfigM.defaultM with id := ['x'], enc_id := ['z', 'z'] }).1.id =
      ['x'] ∧
    (loadModel
        { dec := decC, enc := encC, mtime := 100, exe := 200,
          autoIds := [none, none, none] }
        { ConfigM.defaultM with id := ['x'], enc_id := ['z', 'z'] }).2 =
      false) ∧
    ((loadModel
        { dec := decC, enc := encC, mtime := 100, exe := 200,
          autoIds := [none, none, none] }
        { ConfigM.defaultM with id := ['w'], enc_id := encryptSOr encC ['v'] }).1 ≠
      { ConfigM.defaultM with id := ['w'], enc_id := encryptSOr encC ['v'] } ∧
    (loadModel
        { dec := decC, enc := encC, mtime := 100, exe := 200,
          autoIds := [none, none, none] }
        { ConfigM.defaultM with id := ['w'], enc_id := encryptSOr encC ['v'] }).1.id =
      ['v'] ∧
    (loadModel
        { dec := decC, enc := encC, mtime := 100, exe := 200,
          autoIds := [none, none, none] }
        { ConfigM.defaultM with id := ['w'], enc_id := encryptSOr encC ['v'] }).2 =
      false) := by
  refine ⟨⟨by decide, by decide⟩, by decide, by decide, by decide⟩

/-- C1 amended: on loading the primary identity record, if decrypting the
stored encrypted id succeeds it is adopted as the trusted id; otherwise the
plaintext id field is trusted (kept, with a forced re-persist) only under the
trust condition: the config file's modification time less the fixed 30-second
grace is earlier than the executable's build time (modification times within
30 seconds of the epoch counting as not earlier), the plaintext id is
non-empty, the encrypted id is empty, and the plaintext id does not itself
decrypt as ciphertext; otherwise a new id is generated with at most 3
attempts, the id field being left as loaded (which is empty on a fresh default
record) when all attempts fail; the record is re-persisted exactly when the
stored password needed re-encryption, the successfully decrypted encrypted id
requested a rewrite, a legacy plaintext id was adopted for migration, or a new
id was generated; and persisting re-encrypts the id and clears the plaintext
id field at rest. -/
theorem claim_c1_load (env : LoadEnv) (c0 : ConfigM) :
    ((decryptSOr env.dec c0.enc_id).2.1 = true →
      (loadModel env c0).1.id = (decryptSOr env.dec c0.enc_id).1) ∧
    ((decryptSOr env.dec c0.enc_id).2.1 = false →
      trustPlainCond env c0 = true →
      (loadModel env c0).1.id = c0.id ∧ (loadModel env c0).2 = true) ∧
    ((decryptSOr env.dec c0.enc_id).2.1 = false →
      trustPlainCond env c0 = false →
      (loadModel env c0).1.id =
        (firstSome (env.autoIds.take 3)).getD c0.id) ∧
    ((loadModel env c0).2 =
      ((decryptSOr env.dec c0.password).2.2 ||
        ((decryptSOr env.dec c0.enc_id).2.1 &&
          (decryptSOr env.dec c0.enc_id).2.2) ||
        (!(decryptSOr env.dec c0.enc_id).2.1 && trustPlainCond env c0) ||
        (!(decryptSOr env.dec c0.enc_id).2.1 && !trustPlainCond env c0 &&
          (firstSome (env.autoIds.take 3)).isSome))) ∧
    ((storeModel env.enc (loadModel env c0).1).id = [] ∧
      (storeModel env.enc (loadModel env c0).1).enc_id =
        encryptSOr env.enc (loadModel env c0).1.id) := by
  have htr : trustPlainCond env
      { c0 with password := (decryptSOr env.dec c0.password).1 } =
      trustPlainCond env c0 := rfl
  by_cases hdi : (decryptSOr env.dec c0.enc_id).2.1 = true
  · refine ⟨fun _ => ?_, fun hcon => absurd hdi (by simp [hcon]), 
      fun hcon => absurd hdi (by simp [hcon]), ?_, rfl, rfl⟩
    · simp only [loadModel]
      rw [if_pos hdi]
    · simp only [loadModel]
      rw [if_pos hdi]
      simp [hdi]
  · have hdi2 : (decryptSOr env.dec c0.enc_id).2.1 = false := by
      cases h : (decryptSOr env.dec c0.enc_id).2.1 with
      | false => rfl
      | true => exact absurd h hdi
    by_cases htrust : trustPlainCond env c0 = true
    · refine ⟨fun hcon => absurd hcon hdi, fun _ _ => ?_,
        fun _ hcon => absurd htrust (by simp [hcon]), ?_, rfl, rfl⟩
      · simp only [loadModel]
        rw [if_neg (by simp [hdi2]), if_pos (htr.trans htrust)]
        exact ⟨rfl, rfl⟩
      · simp only [loadModel]
        rw [if_neg (by simp [hdi2]), if_pos (htr.trans htrust)]
        simp [hdi2, htrust]
    · have htrust2 : trustPlainCond env c0 = false := by
        cases h : trustPlainCond env c0 with
        | false => rfl
        | true => exact absurd h htrust
      cases hgen : firstSome (env.autoIds.take 3) with
      | some nid =>
        refine ⟨fun hcon => absurd hcon hdi, fun _ hcon => absurd hcon htrust,
          fun _ _ => ?_, ?_, rfl, rfl⟩
        · simp only [loadModel]
          rw [if_neg (by simp [hdi2]), if_neg (by rw [htr, htrust2]; simp), hgen]
          rfl
        · simp only [loadModel]
          rw [if_neg (by simp [hdi2]), if_neg (by rw [htr, htrust2]; simp), hgen]
          simp [hdi2, htrust2]
      | none =>
        refine ⟨fun hcon => absurd hcon hdi, fun _ hcon => absurd hcon htrust,
          fun _ _ => ?_, ?_, rfl, rfl⟩
        · simp only [loadModel]
          rw [if_neg (by simp [hdi2]), if_neg (by rw [htr, htrust2]; simp), hgen]
          rfl
        · simp only [loadModel]
          rw [if_neg (by simp [hdi2]), if_neg (by rw [htr, htrust2]; simp), hgen]
          simp [hdi2, htrust2]

/-- Witness for C1 at a concrete environment and record whose encrypted id
decrypts successfully: the decrypted id "v" is adopted, nothing is persisted,
and the at-rest form of the result clears the plaintext id. -/
theorem claim_c1_load_witness :
    (loadModel
        { dec := decC, enc := encC, mtime := 100, exe := 200, autoIds := [] }
        { ConfigM.defaultM with enc_id := encryptSOr encC ['v'] }).1.id =
      ['v'] ∧
    (loadModel
        { dec := decC, enc := encC, mtime := 100, exe := 200, autoIds := [] }
        { ConfigM.defaultM with enc_id := encryptSOr encC ['v'] }).2 = false ∧
    (storeModel encC
        (loadModel
          { dec := decC, enc := encC, mtime := 100, exe := 200, autoIds := [] }
          { ConfigM.defaultM with enc_id := encryptSOr encC ['v'] }).1).id =
      [] := by
  have h := claim_c1_load
    { dec := decC, enc := encC, mtime := 100, exe := 200, autoIds := [] }
    { ConfigM.defaultM with enc_id := encryptSOr encC ['v'] }
  refine ⟨?_, ?_, h.2.2.2.2.1⟩
  · have h1 := h.1 (by decide)
    rw [h1]
    decide
  · have h4 := h.2.2.2.1
    rw [h4]
    decide

/-- C6 counterexample: calling update_latency("h", i64::MAX) on an empty table
and an empty persisted server leaves the persisted server empty, although "h"
is then the (unique) host with the smallest strictly-positive latency — the
scan's strict comparison against the i64::MAX sentinel never selects it,
refuting the claim as universally stated. -/
theorem claim_c6_counterexample :
    (updateLatencyM [] Config2M.defaultM ['h'] i64Max).1 =
      [(['h'], i64Max)] ∧
    (0 : Int) < i64Max ∧
    (updateLatencyM [] Config2M.defaultM ['h'] i64Max).2.1.rendezvous_server =
      [] ∧
    (updateLatencyM [] Config2M.defaultM ['h'] i64Max).2.2 = false := by
  refine ⟨by decide, by decide, by decide, by decide⟩

/-- C6 amended: update_latency(host, latency) first records (host, latency)
into the transient table, replacing any previous entry for that host.  If the
scan selects a non-empty host, the persisted rendezvous_server equals that
host, which is an entry of the table with strictly-positive latency that is
minimal among all strictly-positive latencies, and the record is persisted
exactly when that host differs from the currently persisted one.  Whenever
some table entry has latency strictly between 0 and the i64::MAX sentinel and
all table hosts are non-empty, the scan does select such a host.  When no
entry has latency strictly between 0 and i64::MAX, the selection and the
record are left unchanged: in particular an entry with non-positive latency is
never selected. -/
theorem claim_c6_latency (online : List (List Char × Int)) (c2 : Config2M)
    (host : List Char) (latency : Int) :
    ((updateLatencyM online c2 host latency).1 = insertA host latency online) ∧
    ((scanBest (insertA host latency online)).1 = [] →
      (updateLatencyM online c2 host latency).2.1 = c2 ∧
      (updateLatencyM online c2 host latency).2.2 = false) ∧
    ((scanBest (insertA host latency online)).1 ≠ [] →
      (updateLatencyM online c2 host latency).2.1.rendezvous_server =
        (scanBest (insertA host latency online)).1 ∧
      ((updateLatencyM online c2 host latency).2.2 = true ↔
        (scanBest (insertA host latency online)).1 ≠ c2.rendezvous_server) ∧
      scanBest (insertA host latency online) ∈ insertA host latency online ∧
      0 < (scanBest (insertA host latency online)).2 ∧
      (∀ p ∈ insertA host latency online, 0 < p.2 →
        (scanBest (insertA host latency online)).2 ≤ p.2)) ∧
    ((∀ p ∈ insertA host latency online, p.1 ≠ []) →
      (∃ p ∈ insertA host latency online, 0 < p.2 ∧ p.2 < i64Max) →
      (scanBest (insertA host latency online)).1 ≠ []) ∧
    ((∀ p ∈ insertA host latency online, ¬(0 < p.2 ∧ p.2 < i64Max)) →
      (updateLatencyM online c2 host latency).2.1 = c2 ∧
      (updateLatencyM online c2 host latency).2.2 = false) := by
  refine ⟨?_, ?_, ?_, ?_, ?_⟩
  · simp only [updateLatencyM]
    split
    · split
      · rfl
      · rfl
    · rfl
  · intro hbest
    simp only [updateLatencyM]
    rw [if_neg (by simp [hbest])]
    exact ⟨rfl, rfl⟩
  · intro hbest
    have hmem := scanFold_mem (insertA host latency online) ([], i64Max)
    rcases hmem with hacc | ⟨hin, hpos⟩
    · exact absurd (congrArg Prod.fst hacc) hbest
    · refine ⟨?_, ?_, hin, hpos, ?_⟩
      · simp only [updateLatencyM]
        rw [if_pos (by simp [isEmptyFalseOfNe hbest])]
        split
        · rfl
        · next heq =>
          simp only [ne_eq, Decidable.not_not] at heq
          exact heq.symm
      · simp only [updateLatencyM]
        rw [if_pos (by simp [isEmptyFalseOfNe hbest])]
        constructor
        · intro h2
          split at h2
          · next hne => exact hne
          · exact absurd h2 (by simp)
        · intro hne
          rw [if_pos hne]
      · intro p hp hppos
        rcases scanFold_min (insertA host latency online) ([], i64Max) p hp
            hppos with h | h
        · exact h
        · exact le_trans (scanFold_snd_le _ _) h
  · intro hhost hex
    rcases hex with ⟨p, hp, hppos, hplt⟩
    rcases scanFold_mem (insertA host latency online) ([], i64Max) with
      hacc | ⟨hin, _⟩
    · exfalso
      rcases scanFold_min (insertA host latency online) ([], i64Max) p hp
          hppos with h | h
      · rw [hacc] at h
        simp only at h
        omega
      · simp only at h
        omega
    · exact hhost _ hin
  · intro hno
    have hacc : (insertA host latency online).foldl scanStep ([], i64Max) =
        ([], i64Max) :=
      scanFold_nochange _ _ (by
        intro p hp hcon
        exact hno p hp ⟨hcon.1, hcon.2⟩)
    simp only [updateLatencyM, scanBest, hacc]
    exact ⟨rfl, rfl⟩

/-- Witness for C6, running the claim's scenario: after update_latency("h1",50)
has selected "h1", update_latency("h2", 20) moves the persisted server to "h2"
(lower positive latency wins), and a subsequent update_latency("h3", -1) with
a non-positive latency leaves the selection at "h2". -/
theorem claim_c6_latency_witness :
    (updateLatencyM [] Config2M.defaultM (strM "h1") 50).2.1.rendezvous_server =
      strM "h1" ∧
    (updateLatencyM [(strM "h1", 50)]
        { Config2M.defaultM with rendezvous_server := strM "h1" }
        (strM "h2") 20).2.1.rendezvous_server = strM "h2" ∧
    (updateLatencyM [(strM "h2", 20), (strM "h1", 50)]
        { Config2M.defaultM with rendezvous_server := strM "h2" }
        (strM "h3") (-1)).2.1.rendezvous_server = strM "h2" := by
  refine ⟨?_, ?_, ?_⟩
  · have h := (claim_c6_latency [] Config2M.defaultM (strM "h1") 50).2.2.1
      (by decide)
    rw [h.1]
    decide
  · have h := (claim_c6_latency [(strM "h1", 50)]
      { Config2M.defaultM with rendezvous_server := strM "h1" }
      (strM "h2") 20).2.2.1 (by decide)
    rw [h.1]
    decide
  · have h := (claim_c6_latency [(strM "h2", 20), (strM "h1", 50)]
      { Config2M.defaultM with rendezvous_server := strM "h2" }
      (strM "h3") (-1)).2.2.1 (by decide)
    rw [h.1]
    decide

/-- List helper: a list with isEmpty false is non-empty. -/
theorem neOfIsEmptyFalse {l : List Char} (h : l.isEmpty = false) : l ≠ [] := by
  intro he
  subst he
  simp at h

/-- C4: the bulk peer listing deletes the backing file of, and excludes from
its result, every stored profile whose last-known platform field is empty
(including profiles whose per-file read failed and therefore loaded as the
default); every profile with a non-empty platform is retained; the returned
entries are sorted by file modification time, most recent first; and a
per-file decode or read failure skips that entry without aborting the whole
listing (the failed entry loads as the default profile, is pruned, and every
other entry is still processed). -/
theorem claim_c4_listing (ents : List (Except Unit DirEntryM))
    (es : List DirEntryM) (hok : collectOk ents = some es) :
    (∀ x ∈ (peersModel ents).1, x.2.2.info.platform ≠ []) ∧
    (∀ e ∈ es, e.isFile = true → e.extToml = true →
      ((e.load.getD PeerConfigM.defaultM).info.platform = [] →
        e ∈ (peersModel ents).2) ∧
      ((e.load.getD PeerConfigM.defaultM).info.platform ≠ [] →
        ((decodeStem e.stem, e.mtime, e.load.getD PeerConfigM.defaultM) : PeerTuple)
          ∈ (peersModel ents).1)) ∧
    (peersModel ents).1.Pairwise tupleGe ∧
    (∀ e ∈ es, e.isFile = true → e.extToml = true → e.load = none →
      e ∈ (peersModel ents).2) := by
  simp only [peersModel, hok]
  refine ⟨?_, ?_, ?_, ?_⟩
  · intro x hx
    rw [mem_sortDesc] at hx
    rcases List.mem_map.mp hx with ⟨pre, hpre, hpx⟩
    rcases List.mem_filter.mp hpre with ⟨hpre2, hcond⟩
    subst hpx
    simp only [Bool.not_eq_true'] at hcond
    exact neOfIsEmptyFalse hcond
  · intro e he hf ht
    constructor
    · intro hplat
      apply List.mem_map.mpr
      refine ⟨(e, (decodeStem e.stem, e.mtime, e.load.getD PeerConfigM.defaultM)),
        ?_, rfl⟩
      apply List.mem_filter.mpr
      constructor
      · apply List.mem_map.mpr
        exact ⟨e, List.mem_filter.mpr ⟨he, by simp [hf, ht]⟩, rfl⟩
      · simp only
        rw [hplat]
        rfl
    · intro hplat
      rw [mem_sortDesc]
      apply List.mem_map.mpr
      refine ⟨(e, (decodeStem e.stem, e.mtime, e.load.getD PeerConfigM.defaultM)),
        ?_, rfl⟩
      apply List.mem_filter.mpr
      constructor
      · apply List.mem_map.mpr
        exact ⟨e, List.mem_filter.mpr ⟨he, by simp [hf, ht]⟩, rfl⟩
      · simp only [Bool.not_eq_true']
        exact isEmptyFalseOfNe hplat
  · exact pairwise_sortDesc _
  · intro e he hf ht hnone
    apply List.mem_map.mpr
    refine ⟨(e, (decodeStem e.stem, e.mtime, e.load.getD PeerConfigM.defaultM)),
      ?_, rfl⟩
    apply List.mem_filter.mpr
    constructor
    · apply List.mem_map.mpr
      exact ⟨e, List.mem_filter.mpr ⟨he, by simp [hf, ht]⟩, rfl⟩
    · simp only
      rw [hnone]
      rfl

/-- Concrete directory entries used to instantiate the listing claim. -/
def c4profile (plat : String) : PeerConfigM :=
  { password := [], options := [],
    info := { username := [], hostname := [], platform := strM plat } }

/-- A healthy profile file, modification time 5. -/
def c4entA : DirEntryM :=
  { stem := [97, 108, 112, 104, 97], isFile := true, extToml := true,
    mtime := 5, load := some (c4profile "linux") }

/-- A never-fully-connected stub (empty platform), modification time 9. -/
def c4entB : DirEntryM :=
  { stem := [115, 116, 117, 98], isFile := true, extToml := true,
    mtime := 9, load := some (c4profile "") }

/-- A file whose per-file read fails, modification time 1. -/
def c4entC : DirEntryM :=
  { stem := [98, 97, 100], isFile := true, extToml := true,
    mtime := 1, load := none }

/-- A second healthy profile file, modification time 7. -/
def c4entD : DirEntryM :=
  { stem := [98, 101, 116, 97], isFile := true, extToml := true,
    mtime := 7, load := some (c4profile "win") }

/-- Witness for C4 on a concrete four-file directory: the empty-platform stub
and the unreadable file are deleted and excluded, both healthy profiles are
retained, and the result is ordered most recent first. -/
theorem claim_c4_listing_witness :
    c4entB ∈ (peersModel [.ok c4entA, .ok c4entB, .ok c4entC, .ok c4entD]).2 ∧
    c4entC ∈ (peersModel [.ok c4entA, .ok c4entB, .ok c4entC, .ok c4entD]).2 ∧
    ((decodeStem c4entA.stem, c4entA.mtime,
        c4entA.load.getD PeerConfigM.defaultM) : PeerTuple) ∈
      (peersModel [.ok c4entA, .ok c4entB, .ok c4entC, .ok c4entD]).1 ∧
    ((decodeStem c4entD.stem, c4entD.mtime,
        c4entD.load.getD PeerConfigM.defaultM) : PeerTuple) ∈
      (peersModel [.ok c4entA, .ok c4entB, .ok c4entC, .ok c4entD]).1 ∧
    (peersModel [.ok c4entA, .ok c4entB, .ok c4entC, .ok c4entD]).1.Pairwise
      tupleGe := by
  have h := claim_c4_listing [.ok c4entA, .ok c4entB, .ok c4entC, .ok c4entD]
    [c4entA, c4entB, c4entC, c4entD] rfl
  refine ⟨?_, ?_, ?_, ?_, h.2.2.1⟩
  · exact (h.2.1 c4entB (by simp) rfl rfl).1 rfl
  · exact h.2.2.2 c4entC (by simp) rfl rfl rfl
  · exact (h.2.1 c4entA (by simp) rfl rfl).2 (by decide)
  · exact (h.2.1 c4entD (by simp) rfl rfl).2 (by decide)
